import Mathlib

/-!
Verification of the SQL token utilities of the GeoPackage driver
(ogr/ogrsf_frmts/sqlite/ogrsqliteutility.cpp): the tokenizer
SQLTokenize, the escapers SQLEscapeLiteral and SQLEscapeName, and the
unescaper SQLUnescape.  Strings are modelled as lists of characters
(the C code walks NUL-terminated char arrays one byte at a time; the
embedding walks a List Char).
-/

namespace SQLiteUtility

/-- The single-quote character (ASCII 39), the literal delimiter. -/
def squote : Char := Char.ofNat 39

/-- The double-quote character (ASCII 34), the identifier delimiter. -/
def dquote : Char := Char.ofNat 34

/-- The NUL character: the C code reads it at the end of the string when
it looks one character ahead. -/
def nulChar : Char := Char.ofNat 0

/-- Loop body of SQLUnescape after the opening quote has been consumed:
a doubled quote character emits the second copy and skips both, a single
quote character stops the scan, and any other character is emitted. -/
def unescapeLoop (q : Char) : List Char → List Char
  | [] => []
  | c :: rest =>
    if c = q then
      match rest with
      | c2 :: rest2 => if c2 = q then c2 :: unescapeLoop q rest2 else []
      | [] => []
    else
      c :: unescapeLoop q rest

/-- SQLUnescape from the source: if the first character is neither a
single nor a double quote (in particular on the empty string, where the
C code reads the terminating NUL) the input is returned unchanged;
otherwise the remainder is scanned by unescapeLoop with the first
character as the quote character. -/
def SQLUnescape (t : List Char) : List Char :=
  match t with
  | [] => t
  | c :: rest => if c = squote ∨ c = dquote then unescapeLoop c rest else t

/-- SQLEscapeLiteral from the source: each single-quote character is
preceded by an extra single quote; every character is then emitted. -/
def SQLEscapeLiteral : List Char → List Char
  | [] => []
  | c :: rest =>
    if c = squote then squote :: c :: SQLEscapeLiteral rest
    else c :: SQLEscapeLiteral rest

/-- SQLEscapeName from the source: each double-quote character is
replaced by two double quotes; every other character is emitted as is. -/
def SQLEscapeName : List Char → List Char
  | [] => []
  | c :: rest =>
    if c = dquote then dquote :: dquote :: SQLEscapeName rest
    else c :: SQLEscapeName rest

/-- The scan state of SQLTokenize, one field per local variable of the
C function. -/
structure TokState where
  bInQuote : Bool
  chQuoteChar : Char
  bInSpace : Bool
  osCurrentToken : List Char
  papszTokens : List (List Char)
deriving Repr, DecidableEq

/-- The space branch of the tokenizer loop: outside a quote, a space
flushes the current token when the scan is not already in a gap. -/
def spaceStep (s : TokState) : TokState :=
  if s.bInSpace = false then
    { s with papszTokens := s.papszTokens ++ [s.osCurrentToken],
             osCurrentToken := [], bInSpace := true }
  else
    { s with bInSpace := true }

/-- The punctuation branch of the tokenizer loop: outside a quote, one
of the three punctuation characters flushes the current token when not
in a gap and is then emitted as a one-character token of its own. -/
def punctStep (s : TokState) (c : Char) : TokState :=
  { s with
    papszTokens :=
      (if s.bInSpace = false then s.papszTokens ++ [s.osCurrentToken]
       else s.papszTokens) ++ [[c]],
    osCurrentToken := [], bInSpace := true }

/-- The one-character quote branch of the tokenizer loop (the doubled
quote case is handled by the caller, which looks one character ahead):
a matching quote closes and flushes the token, a non-matching quote
inside a span is an ordinary character, and a quote outside any span
clears the accumulator and opens a new quoted token. -/
def quoteStep (s : TokState) (c : Char) : TokState :=
  if s.bInQuote = true ∧ c = s.chQuoteChar then
    { s with papszTokens := s.papszTokens ++ [s.osCurrentToken ++ [c]],
             osCurrentToken := [], bInSpace := true, bInQuote := false,
             chQuoteChar := nulChar }
  else if s.bInQuote = true then
    { s with osCurrentToken := s.osCurrentToken ++ [c] }
  else
    { s with chQuoteChar := c, osCurrentToken := [c],
             bInQuote := true, bInSpace := false }

/-- The while loop of SQLTokenize, one branch per branch of the C code.
The doubled-quote case compares the next input character (the C code
reads the terminating NUL at the end of the string) and consumes two
characters at once, so the match looks at up to two characters. -/
def tokenizeLoop (s : TokState) : List Char → TokState
  | [] => s
  | c :: [] =>
    if c = ' ' ∧ s.bInQuote = false then
      tokenizeLoop (spaceStep s) []
    else if (c = '(' ∨ c = ')' ∨ c = ',') ∧ s.bInQuote = false then
      tokenizeLoop (punctStep s c) []
    else if c = dquote ∨ c = squote then
      if s.bInQuote = true ∧ c = s.chQuoteChar ∧ nulChar = s.chQuoteChar then
        { s with osCurrentToken := s.osCurrentToken ++ [c, c] }
      else
        tokenizeLoop (quoteStep s c) []
    else
      tokenizeLoop { s with osCurrentToken := s.osCurrentToken ++ [c],
                            bInSpace := false } []
  | c :: c2 :: rest2 =>
    if c = ' ' ∧ s.bInQuote = false then
      tokenizeLoop (spaceStep s) (c2 :: rest2)
    else if (c = '(' ∨ c = ')' ∨ c = ',') ∧ s.bInQuote = false then
      tokenizeLoop (punctStep s c) (c2 :: rest2)
    else if c = dquote ∨ c = squote then
      if s.bInQuote = true ∧ c = s.chQuoteChar ∧ c2 = s.chQuoteChar then
        tokenizeLoop { s with osCurrentToken := s.osCurrentToken ++ [c, c] } rest2
      else
        tokenizeLoop (quoteStep s c) (c2 :: rest2)
    else
      tokenizeLoop { s with osCurrentToken := s.osCurrentToken ++ [c],
                            bInSpace := false } (c2 :: rest2)

/-- The initial scan state of SQLTokenize. -/
def initState : TokState :=
  { bInQuote := false, chQuoteChar := nulChar, bInSpace := true,
    osCurrentToken := [], papszTokens := [] }

/-- SQLTokenize from the source: run the scan loop from the initial
state and flush the final token when it is not empty. -/
def SQLTokenize (input : List Char) : List (List Char) :=
  let fin := tokenizeLoop initState input
  if fin.osCurrentToken = [] then fin.papszTokens
  else fin.papszTokens ++ [fin.osCurrentToken]

/-- Restatement of the literal escaper following the wording of the
specification (section 4.2): every single-quote character is emitted
twice, all other characters pass through unchanged, and no surrounding
delimiters are added. -/
def escapeLiteralSpec : List Char → List Char
  | [] => []
  | c :: rest =>
    if c = squote then c :: c :: escapeLiteralSpec rest
    else c :: escapeLiteralSpec rest

/-- Restatement of the unescaper scan following the wording of the
specification (section 4.4): a quote equal to the delimiter and
followed by the same quote emits one copy of it and advances two
positions, an undoubled delimiter stops the scan and is not emitted,
and any other character is emitted; when no closing delimiter occurs
the scan simply ends at the end of input. -/
def unescapeScanSpec (q : Char) : List Char → List Char
  | [] => []
  | c :: rest =>
    if c = q then
      match rest with
      | c2 :: rest2 => if c2 = q then q :: unescapeScanSpec q rest2 else []
      | [] => []
    else
      c :: unescapeScanSpec q rest

/-- Restatement of the unescaper following the wording of the
specification (section 4.4), including the pass-through case for
tokens that are empty or do not start with a quote character. -/
def SQLUnescapeSpec (t : List Char) : List Char :=
  match t with
  | [] => t
  | c :: rest => if c = squote ∨ c = dquote then unescapeScanSpec c rest else t

/-- Invariant of the tokenizer scan state: outside a gap the
accumulator is not empty, inside a quoted span the accumulator starts
with the quote character that opened the span, and every token emitted
so far is not empty. -/
def stateInv (s : TokState) : Prop :=
  (s.bInSpace = false → s.osCurrentToken ≠ []) ∧
  (s.bInQuote = true → s.osCurrentToken.head? = some s.chQuoteChar) ∧
  (∀ t ∈ s.papszTokens, t ≠ [])

/-! Helper lemmas: the escapers and the unescaper. -/

theorem escapeLiteral_eq_spec (s : List Char) :
    SQLEscapeLiteral s = escapeLiteralSpec s := by
  induction s with
  | nil => rfl
  | cons c rest ih =>
    by_cases h : c = squote
    · subst h; simp [SQLEscapeLiteral, escapeLiteralSpec, ih]
    · simp [SQLEscapeLiteral, escapeLiteralSpec, h, ih]

theorem unescapeLoop_eq_scanSpec (q : Char) (l : List Char) :
    unescapeLoop q l = unescapeScanSpec q l := by
  refine unescapeLoop.induct q (fun l => unescapeLoop q l = unescapeScanSpec q l) ?_ ?_ ?_ ?_ ?_ l
  · rfl
  · intro rest2 ih
    rw [unescapeLoop.eq_def, unescapeScanSpec.eq_def]; simp [ih]
  · intro c2 rest2 h
    rw [unescapeLoop.eq_def, unescapeScanSpec.eq_def]; simp [h]
  · show unescapeLoop q [q] = unescapeScanSpec q [q]
    rw [unescapeLoop.eq_def, unescapeScanSpec.eq_def]; simp
  · intro c rest h ih
    rw [unescapeLoop.eq_def, unescapeScanSpec.eq_def]; simp [h, ih]

theorem unescape_eq_spec (t : List Char) :
    SQLUnescape t = SQLUnescapeSpec t := by
  cases t with
  | nil => rfl
  | cons c rest =>
    by_cases h : c = squote ∨ c = dquote
    · simp [SQLUnescape, SQLUnescapeSpec, h, unescapeLoop_eq_scanSpec]
    · simp [SQLUnescape, SQLUnescapeSpec, h]

theorem unescapeLoop_escapeLiteral (s : List Char) :
    unescapeLoop squote (SQLEscapeLiteral s ++ [squote]) = s := by
  induction s with
  | nil => decide
  | cons c rest ih =>
    by_cases h : c = squote
    · subst h
      have h1 : SQLEscapeLiteral (squote :: rest) ++ [squote]
          = squote :: squote :: (SQLEscapeLiteral rest ++ [squote]) := by
        simp [SQLEscapeLiteral]
      rw [h1, unescapeLoop.eq_def]
      simp [ih]
    · have h1 : SQLEscapeLiteral (c :: rest) ++ [squote]
          = c :: (SQLEscapeLiteral rest ++ [squote]) := by
        simp [SQLEscapeLiteral, h]
      rw [h1, unescapeLoop.eq_def]
      simp [h, ih]

/-! Helper lemmas: unfolding and branch selection for the tokenizer loop. -/

theorem tokenizeLoop_nil (s : TokState) : tokenizeLoop s [] = s := rfl

theorem tokenizeLoop_single (s : TokState) (c : Char) :
    tokenizeLoop s [c] =
      if c = ' ' ∧ s.bInQuote = false then spaceStep s
      else if (c = '(' ∨ c = ')' ∨ c = ',') ∧ s.bInQuote = false then punctStep s c
      else if c = dquote ∨ c = squote then
        if s.bInQuote = true ∧ c = s.chQuoteChar ∧ nulChar = s.chQuoteChar then
          { s with osCurrentToken := s.osCurrentToken ++ [c, c] }
        else quoteStep s c
      else { s with osCurrentToken := s.osCurrentToken ++ [c], bInSpace := false } := rfl

theorem tokenizeLoop_cons_cons (s : TokState) (c c2 : Char) (l : List Char) :
    tokenizeLoop s (c :: c2 :: l) =
      if c = ' ' ∧ s.bInQuote = false then tokenizeLoop (spaceStep s) (c2 :: l)
      else if (c = '(' ∨ c = ')' ∨ c = ',') ∧ s.bInQuote = false then
        tokenizeLoop (punctStep s c) (c2 :: l)
      else if c = dquote ∨ c = squote then
        if s.bInQuote = true ∧ c = s.chQuoteChar ∧ c2 = s.chQuoteChar then
          tokenizeLoop { s with osCurrentToken := s.osCurrentToken ++ [c, c] } l
        else tokenizeLoop (quoteStep s c) (c2 :: l)
      else tokenizeLoop { s with osCurrentToken := s.osCurrentToken ++ [c],
                                 bInSpace := false } (c2 :: l) := rfl

theorem tokenizeLoop_space (s : TokState) (rest : List Char) (hq : s.bInQuote = false) :
    tokenizeLoop s (' ' :: rest) = tokenizeLoop (spaceStep s) rest := by
  cases rest with
  | nil => rw [tokenizeLoop_single, if_pos (And.intro rfl hq), tokenizeLoop_nil]
  | cons c2 l => rw [tokenizeLoop_cons_cons, if_pos (And.intro rfl hq)]

theorem tokenizeLoop_punct (s : TokState) (c : Char) (rest : List Char)
    (hc : c = '(' ∨ c = ')' ∨ c = ',') (hq : s.bInQuote = false) :
    tokenizeLoop s (c :: rest) = tokenizeLoop (punctStep s c) rest := by
  have hs : ¬(c = ' ' ∧ s.bInQuote = false) := by
    rintro ⟨h1, -⟩
    rcases hc with h2 | h2 | h2 <;> rw [h2] at h1 <;> exact absurd h1 (by decide)
  cases rest with
  | nil => rw [tokenizeLoop_single, if_neg hs, if_pos (And.intro hc hq), tokenizeLoop_nil]
  | cons c2 l => rw [tokenizeLoop_cons_cons, if_neg hs, if_pos (And.intro hc hq)]

theorem quoteStep_open (s : TokState) (c : Char) (hq : s.bInQuote = false) :
    quoteStep s c = { s with chQuoteChar := c, osCurrentToken := [c],
                             bInQuote := true, bInSpace := false } := by
  have h1 : ¬(s.bInQuote = true ∧ c = s.chQuoteChar) := by
    rintro ⟨h, -⟩; rw [hq] at h; exact absurd h (by decide)
  have h2 : ¬(s.bInQuote = true) := by
    intro h; rw [hq] at h; exact absurd h (by decide)
  unfold quoteStep
  rw [if_neg h1, if_neg h2]

theorem tokenizeLoop_quote_open (s : TokState) (c : Char) (rest : List Char)
    (hc : c = dquote ∨ c = squote) (hq : s.bInQuote = false) :
    tokenizeLoop s (c :: rest)
      = tokenizeLoop { s with chQuoteChar := c, osCurrentToken := [c],
                              bInQuote := true, bInSpace := false } rest := by
  have hcs : ¬(c = ' ' ∧ s.bInQuote = false) := by
    rintro ⟨h1, -⟩
    rcases hc with h | h <;> rw [h] at h1 <;> exact absurd h1 (by decide)
  have hp : ¬((c = '(' ∨ c = ')' ∨ c = ',') ∧ s.bInQuote = false) := by
    rintro ⟨h1 | h1 | h1, -⟩ <;>
      (rcases hc with h | h <;> rw [h] at h1 <;> exact absurd h1 (by decide))
  have hd : ∀ x : Char, ¬(s.bInQuote = true ∧ c = s.chQuoteChar ∧ x = s.chQuoteChar) := by
    rintro x ⟨h, -, -⟩; rw [hq] at h; exact absurd h (by decide)
  cases rest with
  | nil =>
    rw [tokenizeLoop_single, if_neg hcs, if_neg hp, if_pos hc, if_neg (hd nulChar),
        quoteStep_open s c hq, tokenizeLoop_nil]
  | cons c2 l =>
    rw [tokenizeLoop_cons_cons, if_neg hcs, if_neg hp, if_pos hc, if_neg (hd c2),
        quoteStep_open s c hq]

theorem tokenizeLoop_quote_double (s : TokState) (rest : List Char)
    (hq : s.bInQuote = true) (hc : s.chQuoteChar = dquote ∨ s.chQuoteChar = squote) :
    tokenizeLoop s (s.chQuoteChar :: s.chQuoteChar :: rest)
      = tokenizeLoop { s with
          osCurrentToken := s.osCurrentToken ++ [s.chQuoteChar, s.chQuoteChar] } rest := by
  have hs : ¬(s.chQuoteChar = ' ' ∧ s.bInQuote = false) := by
    rintro ⟨-, h⟩; rw [hq] at h; exact absurd h (by decide)
  have hp : ¬((s.chQuoteChar = '(' ∨ s.chQuoteChar = ')' ∨ s.chQuoteChar = ',')
      ∧ s.bInQuote = false) := by
    rintro ⟨-, h⟩; rw [hq] at h; exact absurd h (by decide)
  rw [tokenizeLoop_cons_cons, if_neg hs, if_neg hp, if_pos hc,
      if_pos (And.intro hq (And.intro rfl rfl))]

/-! Helper lemmas: preservation of the scan-state invariant. -/


theorem stateInv_spaceStep (s : TokState) (hq : s.bInQuote = false) (h : stateInv s) :
    stateInv (spaceStep s) := by
  obtain ⟨h1, h2, h3⟩ := h
  unfold stateInv spaceStep
  by_cases hb : s.bInSpace = false
  · rw [if_pos hb]
    refine ⟨?_, ?_, ?_⟩
    · intro hfalse; simp at hfalse
    · intro htrue; rw [hq] at htrue; exact absurd htrue (by decide)
    · intro t ht
      rcases List.mem_append.mp ht with ht2 | ht2
      · exact h3 t ht2
      · rw [List.mem_singleton.mp ht2]; exact h1 hb
  · rw [if_neg hb]
    refine ⟨?_, ?_, ?_⟩
    · intro hfalse; simp at hfalse
    · intro htrue; rw [hq] at htrue; exact absurd htrue (by decide)
    · exact h3

theorem stateInv_punctStep (s : TokState) (c : Char) (hq : s.bInQuote = false)
    (h : stateInv s) : stateInv (punctStep s c) := by
  obtain ⟨h1, h2, h3⟩ := h
  unfold stateInv punctStep
  refine ⟨?_, ?_, ?_⟩
  · intro hfalse; simp at hfalse
  · intro htrue; rw [hq] at htrue; exact absurd htrue (by decide)
  · intro t ht
    rcases List.mem_append.mp ht with ht2 | ht2
    · by_cases hb : s.bInSpace = false
      · rw [if_pos hb] at ht2
        rcases List.mem_append.mp ht2 with ht3 | ht3
        · exact h3 t ht3
        · rw [List.mem_singleton.mp ht3]; exact h1 hb
      · rw [if_neg hb] at ht2; exact h3 t ht2
    · rw [List.mem_singleton.mp ht2]; simp

theorem stateInv_quoteStep (s : TokState) (c : Char) (h : stateInv s) :
    stateInv (quoteStep s c) := by
  obtain ⟨h1, h2, h3⟩ := h
  unfold stateInv quoteStep
  by_cases hcl : s.bInQuote = true ∧ c = s.chQuoteChar
  · rw [if_pos hcl]
    refine ⟨?_, ?_, ?_⟩
    · intro hfalse; simp at hfalse
    · intro htrue; simp at htrue
    · intro t ht
      rcases List.mem_append.mp ht with ht2 | ht2
      · exact h3 t ht2
      · rw [List.mem_singleton.mp ht2]; simp
  · rw [if_neg hcl]
    by_cases hqi : s.bInQuote = true
    · rw [if_pos hqi]
      refine ⟨?_, ?_, ?_⟩
      · intro hfalse; simp
      · intro htrue
        simp only [List.head?_append, h2 hqi]; rfl
      · exact h3
    · rw [if_neg hqi]
      refine ⟨?_, ?_, ?_⟩
      · intro hfalse; simp
      · intro htrue; simp
      · exact h3

theorem stateInv_appendQuote (s : TokState) (c : Char) (hq : s.bInQuote = true)
    (h : stateInv s) :
    stateInv { s with osCurrentToken := s.osCurrentToken ++ [c, c] } := by
  obtain ⟨h1, h2, h3⟩ := h
  unfold stateInv
  refine ⟨?_, ?_, ?_⟩
  · intro hfalse; simp
  · intro htrue
    simp only [List.head?_append, h2 hq]; rfl
  · exact h3

theorem stateInv_appendOther (s : TokState) (c : Char) (h : stateInv s) :
    stateInv { s with osCurrentToken := s.osCurrentToken ++ [c], bInSpace := false } := by
  obtain ⟨h1, h2, h3⟩ := h
  unfold stateInv
  refine ⟨?_, ?_, ?_⟩
  · intro hfalse; simp
  · intro htrue
    simp only [List.head?_append, h2 htrue]; rfl
  · exact h3




theorem tokenizeLoop_stateInv (s : TokState) (l : List Char) :
    stateInv s → stateInv (tokenizeLoop s l) := by
  induction s, l using tokenizeLoop.induct with
  | case1 s => intro h; rw [tokenizeLoop_nil]; exact h
  | case2 s c hcond ih =>
    intro h
    obtain ⟨hc, hq⟩ := hcond
    subst hc
    rw [tokenizeLoop_space s [] hq]
    exact ih (stateInv_spaceStep s hq h)
  | case3 s c hns hcond ih =>
    intro h
    obtain ⟨hc, hq⟩ := hcond
    rw [tokenizeLoop_punct s c [] hc hq]
    exact ih (stateInv_punctStep s c hq h)
  | case4 s c hns hnp hcq hcond =>
    intro h
    rw [tokenizeLoop_single, if_neg hns, if_neg hnp, if_pos hcq, if_pos hcond]
    exact stateInv_appendQuote s c hcond.1 h
  | case5 s c hns hnp hcq hnd ih =>
    intro h
    rw [tokenizeLoop_single, if_neg hns, if_neg hnp, if_pos hcq, if_neg hnd]
    exact stateInv_quoteStep s c h
  | case6 s c hns hnp hnq ih =>
    intro h
    rw [tokenizeLoop_single, if_neg hns, if_neg hnp, if_neg hnq]
    exact stateInv_appendOther s c h
  | case7 s c c2 rest2 hcond ih =>
    intro h
    obtain ⟨hc, hq⟩ := hcond
    subst hc
    rw [tokenizeLoop_space s (c2 :: rest2) hq]
    exact ih (stateInv_spaceStep s hq h)
  | case8 s c c2 rest2 hns hcond ih =>
    intro h
    obtain ⟨hc, hq⟩ := hcond
    rw [tokenizeLoop_punct s c (c2 :: rest2) hc hq]
    exact ih (stateInv_punctStep s c hq h)
  | case9 s c c2 rest2 hns hnp hcq hcond ih =>
    intro h
    rw [tokenizeLoop_cons_cons, if_neg hns, if_neg hnp, if_pos hcq, if_pos hcond]
    exact ih (stateInv_appendQuote s c hcond.1 h)
  | case10 s c c2 rest2 hns hnp hcq hnd ih =>
    intro h
    rw [tokenizeLoop_cons_cons, if_neg hns, if_neg hnp, if_pos hcq, if_neg hnd]
    exact ih (stateInv_quoteStep s c h)
  | case11 s c c2 rest2 hns hnp hnq ih =>
    intro h
    rw [tokenizeLoop_cons_cons, if_neg hns, if_neg hnp, if_neg hnq]
    exact ih (stateInv_appendOther s c h)

theorem stateInv_initState : stateInv initState :=
  ⟨by intro h; simp [initState] at h,
   by intro h; simp [initState] at h,
   by intro t ht; simp [initState] at ht⟩

theorem SQLTokenize_ne_nil (input : List Char) (t : List Char)
    (ht : t ∈ SQLTokenize input) : t ≠ [] := by
  obtain ⟨h1, h2, h3⟩ := tokenizeLoop_stateInv initState input stateInv_initState
  simp only [SQLTokenize] at ht
  by_cases hc : (tokenizeLoop initState input).osCurrentToken = []
  · rw [if_pos hc] at ht
    exact h3 t ht
  · rw [if_neg hc] at ht
    rcases List.mem_append.mp ht with ht2 | ht2
    · exact h3 t ht2
    · rw [List.mem_singleton.mp ht2]; exact hc




theorem tokenizeLoop_punct_space_only :
    ∀ (l : List Char), (∀ c ∈ l, c = '(' ∨ c = ')' ∨ c = ',' ∨ c = ' ') →
    ∀ T : List (List Char),
      tokenizeLoop { bInQuote := false, chQuoteChar := nulChar, bInSpace := true,
                     osCurrentToken := [], papszTokens := T } l
        = { bInQuote := false, chQuoteChar := nulChar, bInSpace := true,
            osCurrentToken := [],
            papszTokens := T ++ (l.filter (fun c => c != ' ')).map (fun c => [c]) } := by
  intro l
  induction l with
  | nil =>
    intro h T
    rw [tokenizeLoop_nil]
    simp
  | cons c rest ih =>
    intro h T
    have hrest : ∀ x ∈ rest, x = '(' ∨ x = ')' ∨ x = ',' ∨ x = ' ' :=
      fun x hx => h x (List.mem_cons_of_mem c hx)
    rcases h c (List.mem_cons_self c rest) with hc | hc | hc | hc
    · subst hc
      rw [tokenizeLoop_punct _ _ rest (Or.inl rfl) rfl]
      have hps : punctStep { bInQuote := false, chQuoteChar := nulChar, bInSpace := true,
                             osCurrentToken := [], papszTokens := T } '('
          = { bInQuote := false, chQuoteChar := nulChar, bInSpace := true,
              osCurrentToken := [], papszTokens := T ++ [['(']] } := rfl
      rw [hps, ih hrest (T ++ [['(']])]
      congr 1
      have hf : ((('(' : Char) != ' ') : Bool) = true := by decide
      simp [List.filter_cons, hf, List.append_assoc]
    · subst hc
      rw [tokenizeLoop_punct _ _ rest (Or.inr (Or.inl rfl)) rfl]
      have hps : punctStep { bInQuote := false, chQuoteChar := nulChar, bInSpace := true,
                             osCurrentToken := [], papszTokens := T } ')'
          = { bInQuote := false, chQuoteChar := nulChar, bInSpace := true,
              osCurrentToken := [], papszTokens := T ++ [[')']] } := rfl
      rw [hps, ih hrest (T ++ [[')']])]
      congr 1
      have hf : (((')' : Char) != ' ') : Bool) = true := by decide
      simp [List.filter_cons, hf, List.append_assoc]
    · subst hc
      rw [tokenizeLoop_punct _ _ rest (Or.inr (Or.inr rfl)) rfl]
      have hps : punctStep { bInQuote := false, chQuoteChar := nulChar, bInSpace := true,
                             osCurrentToken := [], papszTokens := T } ','
          = { bInQuote := false, chQuoteChar := nulChar, bInSpace := true,
              osCurrentToken := [], papszTokens := T ++ [[',']] } := rfl
      rw [hps, ih hrest (T ++ [[',']])]
      congr 1
      have hf : (((',' : Char) != ' ') : Bool) = true := by decide
      simp [List.filter_cons, hf, List.append_assoc]
    · subst hc
      rw [tokenizeLoop_space _ rest rfl]
      have hss : spaceStep { bInQuote := false, chQuoteChar := nulChar, bInSpace := true,
                             osCurrentToken := [], papszTokens := T }
          = { bInQuote := false, chQuoteChar := nulChar, bInSpace := true,
              osCurrentToken := [], papszTokens := T } := rfl
      rw [hss, ih hrest T]
      rfl


/-! Theorems for the claims.  Each claim theorem is stated over the
embedded source functions; witnesses instantiate the quantified claim
theorems at concrete inputs. -/


/-- Claim C1: when the scanner is inside a quoted span opened by quote
character q and the current character is q and the immediately following
input character is also q, both quote characters are appended to the
current token and the scan advances two positions without closing the
span (the state changes only in its accumulator); consequently, on the
seven-character input quote i t quote quote s quote, SQLTokenize returns
that very character list as its single token, the doubled quote
preserved verbatim. -/
theorem claim1_doubled_quote_escape :
    (∀ (s : TokState) (rest : List Char),
      s.bInQuote = true →
      (s.chQuoteChar = dquote ∨ s.chQuoteChar = squote) →
      tokenizeLoop s (s.chQuoteChar :: s.chQuoteChar :: rest)
        = tokenizeLoop { s with
            osCurrentToken := s.osCurrentToken ++ [s.chQuoteChar, s.chQuoteChar] } rest) ∧
    SQLTokenize [squote, 'i', 't', squote, squote, 's', squote]
      = [[squote, 'i', 't', squote, squote, 's', squote]] := by
  refine ⟨?_, by decide⟩
  intro s rest hq hc
  exact tokenizeLoop_quote_double s rest hq hc

/-- Witness for claim C1 at a concrete in-quote state. -/
theorem claim1_doubled_quote_escape_witness :
    tokenizeLoop { bInQuote := true, chQuoteChar := squote, bInSpace := false,
                   osCurrentToken := [squote], papszTokens := [] }
        [squote, squote]
      = tokenizeLoop { bInQuote := true, chQuoteChar := squote, bInSpace := false,
                       osCurrentToken := [squote, squote, squote], papszTokens := [] } [] :=
  claim1_doubled_quote_escape.1
    { bInQuote := true, chQuoteChar := squote, bInSpace := false,
      osCurrentToken := [squote], papszTokens := [] }
    [] (by decide) (by decide)

/-- Claim C2: round trip between the escaper and the unescaper with the
single-quote delimiter: wrapping the escaped text in single quotes and
unescaping recovers the original text.  Proved for every character
list, so in particular for every text not already containing the
delimiter pattern, as the claim states. -/
theorem claim2_roundtrip (s : List Char) :
    SQLUnescape (squote :: (SQLEscapeLiteral s ++ [squote])) = s := by
  simp [SQLUnescape, unescapeLoop_escapeLiteral s]

/-- Claim C3: for every input text, no token returned by SQLTokenize is
the empty string; SQLTokenize on the empty input returns the empty
sequence, and runs of spaces produce no tokens (the input consisting of
x and y separated and surrounded by spaces yields exactly the tokens x
and y). -/
theorem claim3_no_empty_tokens :
    (∀ (input t : List Char), t ∈ SQLTokenize input → t ≠ []) ∧
    SQLTokenize [] = [] ∧
    SQLTokenize [' ', ' ', 'x', ' ', ' ', ' ', 'y', ' ', ' '] = [['x'], ['y']] :=
  ⟨fun input t ht => SQLTokenize_ne_nil input t ht, by decide, by decide⟩

/-- Witness for claim C3 at a concrete input and token. -/
theorem claim3_no_empty_tokens_witness :
    (['x'] : List Char) ∈ SQLTokenize [' ', ' ', 'x', ' ', ' ', ' ', 'y', ' ', ' '] ∧
    (['x'] : List Char) ≠ [] :=
  ⟨by decide, claim3_no_empty_tokens.1 [' ', ' ', 'x', ' ', ' ', ' ', 'y', ' ', ' ']
    ['x'] (by decide)⟩

/-- Claim C4: SQLTokenize is total (the embedding is a total function
returning a plain list, with no error outcome); when the input ends
while a quoted span is still open, the partial content collected so far
is emitted as the final token rather than rejected or dropped, and that
token starts with the opening quote character.  The concrete part shows
the unterminated input quote a b yielding its single partial token. -/
theorem claim4_unterminated_quote :
    (∀ input : List Char,
      (tokenizeLoop initState input).bInQuote = true →
      SQLTokenize input
        = (tokenizeLoop initState input).papszTokens
            ++ [(tokenizeLoop initState input).osCurrentToken] ∧
      (tokenizeLoop initState input).osCurrentToken.head?
        = some (tokenizeLoop initState input).chQuoteChar) ∧
    SQLTokenize [squote, 'a', 'b'] = [[squote, 'a', 'b']] := by
  refine ⟨?_, by decide⟩
  intro input hq
  obtain ⟨h1, h2, h3⟩ := tokenizeLoop_stateInv initState input stateInv_initState
  have hhead := h2 hq
  have hne : (tokenizeLoop initState input).osCurrentToken ≠ [] := by
    intro hemp; rw [hemp] at hhead; exact absurd hhead (by simp)
  refine ⟨?_, hhead⟩
  simp only [SQLTokenize]
  rw [if_neg hne]

/-- Witness for claim C4 at a concrete unterminated input. -/
theorem claim4_unterminated_quote_witness :
    (tokenizeLoop initState [squote, 'a', 'b']).bInQuote = true ∧
    (SQLTokenize [squote, 'a', 'b']
        = (tokenizeLoop initState [squote, 'a', 'b']).papszTokens
            ++ [(tokenizeLoop initState [squote, 'a', 'b']).osCurrentToken] ∧
      (tokenizeLoop initState [squote, 'a', 'b']).osCurrentToken.head?
        = some (tokenizeLoop initState [squote, 'a', 'b']).chQuoteChar) :=
  ⟨by decide, claim4_unterminated_quote.1 [squote, 'a', 'b'] (by decide)⟩

/-- Claim C5: on one of the characters left parenthesis, right
parenthesis or comma outside a quoted span, the tokenizer first flushes
any non-empty accumulated token and then emits that character as its
own one-character token (the hypothesis ties the gap flag to emptiness
of the accumulator, which holds in every reachable state); hence
SQLTokenize on f ( a , b ) returns the six expected tokens. -/
theorem claim5_punctuation_tokens :
    (∀ (s : TokState) (c : Char) (rest : List Char),
      (c = '(' ∨ c = ')' ∨ c = ',') → s.bInQuote = false →
      (s.bInSpace = true ↔ s.osCurrentToken = []) →
      tokenizeLoop s (c :: rest)
        = tokenizeLoop { s with
            papszTokens :=
              (if s.osCurrentToken = [] then s.papszTokens
               else s.papszTokens ++ [s.osCurrentToken]) ++ [[c]],
            osCurrentToken := [], bInSpace := true } rest) ∧
    SQLTokenize ['f', '(', 'a', ',', ' ', 'b', ')']
      = [['f'], ['('], ['a'], [','], ['b'], [')']] := by
  refine ⟨?_, by decide⟩
  intro s c rest hc hq hiff
  rw [tokenizeLoop_punct s c rest hc hq]
  congr 1
  unfold punctStep
  by_cases hb : s.bInSpace = false
  · have hcur : ¬ s.osCurrentToken = [] := by
      intro he
      have hbt := hiff.mpr he
      rw [hbt] at hb
      exact absurd hb (by decide)
    rw [if_pos hb, if_neg hcur]
  · have hbt : s.bInSpace = true := by
      cases hbv : s.bInSpace
      · exact absurd hbv hb
      · rfl
    have hcur : s.osCurrentToken = [] := hiff.mp hbt
    rw [if_neg hb, if_pos hcur]

/-- Witness for claim C5 at a concrete mid-word state. -/
theorem claim5_punctuation_tokens_witness :
    tokenizeLoop { bInQuote := false, chQuoteChar := nulChar, bInSpace := false,
                   osCurrentToken := ['f'], papszTokens := [] } ['(']
      = tokenizeLoop { bInQuote := false, chQuoteChar := nulChar, bInSpace := true,
                       osCurrentToken := [], papszTokens := [['f'], ['(']] } [] :=
  claim5_punctuation_tokens.1
    { bInQuote := false, chQuoteChar := nulChar, bInSpace := false,
      osCurrentToken := ['f'], papszTokens := [] }
    '(' [] (by decide) (by decide) (by decide)

/-- Claim C6: SQLEscapeLiteral emits every single-quote character of its
input twice and passes every other character through unchanged, adds no
surrounding quote delimiters, and is total over every input including
the empty string; stated as agreement with the spec-worded escaper
together with the two concrete examples of the claim. -/
theorem claim6_escape_literal :
    (∀ s : List Char, SQLEscapeLiteral s = escapeLiteralSpec s) ∧
    SQLEscapeLiteral ['i', 't', squote, 's'] = ['i', 't', squote, squote, 's'] ∧
    SQLEscapeLiteral [] = [] :=
  ⟨escapeLiteral_eq_spec, by decide, by decide⟩

/-- Claim C7: SQLUnescape agrees on every token with the spec-worded
unescaper: a token that is empty or does not start with a quote
character is returned unchanged; otherwise, with q the first character,
each doubled q collapses to one q, the scan stops at the first
undoubled q without emitting it, and with no closing delimiter
everything up to the end of input is emitted.  Concrete samples cover
the bare word, the collapse and the missing-delimiter cases. -/
theorem claim7_unescape :
    (∀ t : List Char, SQLUnescape t = SQLUnescapeSpec t) ∧
    SQLUnescape ['b', 'a', 'r', 'e'] = ['b', 'a', 'r', 'e'] ∧
    SQLUnescape [squote, 'i', 't', squote, squote, 's', squote] = ['i', 't', squote, 's'] ∧
    SQLUnescape [squote, 'a', 'b'] = ['a', 'b'] :=
  ⟨unescape_eq_spec, by decide, by decide, by decide⟩

/-- Claim C8 counterexample: the input consisting of a single space
consists solely of punctuation and space characters, yet SQLTokenize
maps it to the empty token sequence, not to the one-element sequence
holding a one-character space token, so the claim fails as stated. -/
theorem claim8_counterexample :
    (∀ c ∈ ([' '] : List Char), c = '(' ∨ c = ')' ∨ c = ',' ∨ c = ' ') ∧
    SQLTokenize [' '] ≠ ([' '] : List Char).map (fun c => [c]) :=
  ⟨by decide, by decide⟩

/-- Claim C8 as amended: for every input text consisting solely of
punctuation and space characters, every punctuation character becomes
its own single-character token in input order and space characters
produce no tokens; equivalently the output is the single-character
tokens of the input with the spaces filtered out. -/
theorem claim8_amended (input : List Char)
    (h : ∀ c ∈ input, c = '(' ∨ c = ')' ∨ c = ',' ∨ c = ' ') :
    SQLTokenize input = (input.filter (fun c => c != ' ')).map (fun c => [c]) := by
  simp only [SQLTokenize]
  have hinit : initState
      = { bInQuote := false, chQuoteChar := nulChar, bInSpace := true,
          osCurrentToken := [], papszTokens := [] } := rfl
  rw [hinit, tokenizeLoop_punct_space_only input h []]
  simp

/-- Witness for the amended claim C8 at a concrete punctuation input. -/
theorem claim8_amended_witness :
    (∀ c ∈ (['(', ',', ')'] : List Char), c = '(' ∨ c = ')' ∨ c = ',' ∨ c = ' ') ∧
    SQLTokenize ['(', ',', ')']
      = ((['(', ',', ')'] : List Char).filter (fun c => c != ' ')).map (fun c => [c]) :=
  ⟨by decide, claim8_amended ['(', ',', ')'] (by decide)⟩

/-- Claim C9: SQLEscapeLiteral is not idempotent: escaping the
already-escaped single-quote character doubles the quotes again. -/
theorem claim9_not_idempotent :
    ∃ s : List Char, SQLEscapeLiteral (SQLEscapeLiteral s) ≠ SQLEscapeLiteral s :=
  ⟨[squote], by decide⟩

/-- Claim C10: when the tokenizer meets a quote character while
accumulating an unquoted word, the accumulated word characters are
discarded without being emitted: the token list is unchanged and the
accumulator is replaced by the quote character alone, opening a quoted
span; concretely, SQLTokenize on a b quote c quote returns only the
quoted token and no token a b. -/
theorem claim10_quote_discards_word :
    (∀ (s : TokState) (c : Char) (rest : List Char),
      (c = dquote ∨ c = squote) → s.bInQuote = false → s.bInSpace = false →
      s.osCurrentToken ≠ [] →
      tokenizeLoop s (c :: rest)
        = tokenizeLoop { s with chQuoteChar := c, osCurrentToken := [c],
                                bInQuote := true, bInSpace := false } rest) ∧
    SQLTokenize ['a', 'b', squote, 'c', squote] = [[squote, 'c', squote]] ∧
    ¬ (['a', 'b'] : List Char) ∈ SQLTokenize ['a', 'b', squote, 'c', squote] := by
  refine ⟨?_, by decide, by decide⟩
  intro s c rest hc hq hsp hne
  exact tokenizeLoop_quote_open s c rest hc hq

/-- Witness for claim C10 at a concrete mid-word state. -/
theorem claim10_quote_discards_word_witness :
    tokenizeLoop { bInQuote := false, chQuoteChar := nulChar, bInSpace := false,
                   osCurrentToken := ['a', 'b'], papszTokens := [] } [squote]
      = tokenizeLoop { bInQuote := true, chQuoteChar := squote, bInSpace := false,
                       osCurrentToken := [squote], papszTokens := [] } [] :=
  claim10_quote_discards_word.1
    { bInQuote := false, chQuoteChar := nulChar, bInSpace := false,
      osCurrentToken := ['a', 'b'], papszTokens := [] }
    squote [] (by decide) (by decide) (by decide) (by decide)


end SQLiteUtility
